import Mathlib

/-!
Verification of the local text-processing logic of `smart.py`
(smart_study_assistant).

Python strings are modelled as `List Char` (`PyStr`); the Python string
operations used by the program (`str.split(". ")`, `str.split()` with no
argument, `str.split(":", 1)`, `str.strip()`, `'\n'`-splitting, `in`) are
embedded as executable Lean functions with the same semantics.  The two
sources of randomness used by `generate_mcq_questions` — `random.sample`
and `random.shuffle` — are modelled as oracle parameters constrained by
the contracts `SampleOK` / `ShuffleOK` (sampling without replacement from
the given population, resp. permuting the given list); the `Nat` index
threaded through the loop models the advancing PRNG state, so different
iterations may receive different random choices.
-/

namespace SmartStudy

/-- A Python string, modelled as its list of characters. -/
abbrev PyStr := List Char

/-- Whitespace test used by Python's `str.split()` / `str.strip()`. -/
def isSpace (c : Char) : Bool := c.isWhitespace

/-- Helper for `pyWords`: accumulates the current word (reversed) while
scanning the input. -/
def pyWordsAux (cur : PyStr) : PyStr → List PyStr
  | [] => if cur.isEmpty then [] else [cur.reverse]
  | c :: rest =>
    if isSpace c then
      if cur.isEmpty then pyWordsAux [] rest
      else cur.reverse :: pyWordsAux [] rest
    else pyWordsAux (c :: cur) rest

/-- Python `s.split()` (no argument): the maximal runs of non-whitespace
characters, with no empty words. -/
def pyWords (s : PyStr) : List PyStr := pyWordsAux [] s

/-- Python `s.strip()`: remove leading and trailing whitespace. -/
def pyStrip (s : PyStr) : PyStr :=
  ((s.dropWhile isSpace).reverse.dropWhile isSpace).reverse

/-- Python `s.split(sep)` for the two-character separator `[a, b]`:
non-overlapping, leftmost-first splitting; the empty string splits to
`[[]]`, exactly as in Python. -/
def splitOnSep2 (a b : Char) : PyStr → List PyStr
  | [] => [[]]
  | [c] => [[c]]
  | c :: d :: rest =>
    if c = a ∧ d = b then [] :: splitOnSep2 a b rest
    else
      match splitOnSep2 a b (d :: rest) with
      | [] => [[c]]
      | x :: xs => (c :: x) :: xs

/-- Python `s.split(sep)` for a one-character separator. -/
def splitOnSep1 (sep : Char) : PyStr → List PyStr
  | [] => [[]]
  | c :: rest =>
    if c = sep then [] :: splitOnSep1 sep rest
    else
      match splitOnSep1 sep rest with
      | [] => [[c]]
      | x :: xs => (c :: x) :: xs

/-- Rejoin pieces with a one-character separator (Python `sep.join`). -/
def joinSep (c : Char) : List PyStr → PyStr
  | [] => []
  | [x] => x
  | x :: y :: ys => x ++ c :: joinSep c (y :: ys)

/-- Python `s.split(sep, 1)` for a one-character separator, as the pair
(part before the first separator, remainder after it).  When `sep` does
not occur the second component is empty (the program only uses this
under an `in` guard, as `smart.py` line 198 does). -/
def pySplitMax1 (c : Char) (l : PyStr) : PyStr × PyStr :=
  match splitOnSep1 c l with
  | [] => ([], [])
  | [x] => (x, [])
  | x :: y :: ys => (x, joinSep c (y :: ys))

/-- `text.split(". ")` — the sentence splitting shared by both question
generators (`smart.py` lines 37 and 51). -/
def pySentences (text : PyStr) : List PyStr := splitOnSep2 '.' ' ' text

/-- `flashcard_text.split('\n')` (`smart.py` line 195). -/
def pyLines (text : PyStr) : List PyStr := splitOnSep1 '\n' text

/-- The filter `len(sentence.split()) > 5` (`smart.py` lines 42 and 56):
keep fragments with more than five whitespace-separated tokens. -/
def longSentence (sentence : PyStr) : Bool :=
  decide (5 < (pyWords sentence).length)

/-- The guard `':' in line` (`smart.py` line 198). -/
def hasColon (line : PyStr) : Bool := decide (':' ∈ line)

/-- The f-string `f"What is the meaning of '{sentence.strip()}?'"`
(`smart.py` line 43). -/
def normalQuestion (sentence : PyStr) : PyStr :=
  ("What is the meaning of '").toList ++ pyStrip sentence ++ ("?'").toList

/-- `generate_normal_questions` (`smart.py` lines 36-46): split on
`". "`, and for each fragment with more than five tokens append one
templated question; modelled as the fold the Python `for` loop is. -/
def generate_normal_questions (text : PyStr) : List PyStr :=
  let sentences := pySentences text
  sentences.foldl
    (fun questions sentence =>
      if longSentence sentence then questions ++ [normalQuestion sentence]
      else questions)
    []

/-- The f-string of `smart.py` line 66:
`f"What is described by the following statement?\n'{sentence.strip()}'"`. -/
def mcqQuestion (sentence : PyStr) : PyStr :=
  ("What is described by the following statement?\n'").toList ++
    pyStrip sentence ++ ("'").toList

/-- `option_labels = ['A', 'B', 'C', 'D']` (`smart.py` line 69). -/
def option_labels : List Char := ['A', 'B', 'C', 'D']

/-- One element of the list returned by `generate_mcq_questions`: the
tuple `(question, labeled_options, correct_answer)` of `smart.py`
line 72.  The Python dict with the distinct keys A-D is modelled as the
association list produced in the same key order. -/
structure MCQ where
  question : PyStr
  labeled_options : List (Char × PyStr)
  correct_answer : PyStr
deriving DecidableEq

/-- The `for sentence in sentences` loop of `generate_mcq_questions`
(`smart.py` lines 55-72).  `sample i pop 3` models
`random.sample(pop, 3)` at the `i`-th loop iteration (`none` models the
`ValueError` it raises when the population is too small, which aborts
the whole call), and `shuffle i` models `random.shuffle` there.  The
population is `[s for s in sentences if s != sentence]` over the full
sentence list. -/
def mcqLoop (sample : Nat → List PyStr → Nat → Option (List PyStr))
    (shuffle : Nat → List PyStr → List PyStr)
    (sentences : List PyStr) : Nat → List PyStr → Option (List MCQ)
  | _, [] => some []
  | i, sentence :: rest =>
    if longSentence sentence then
      match sample i (sentences.filter (fun s => decide (s ≠ sentence))) 3 with
      | none => none
      | some distractors =>
        match mcqLoop sample shuffle sentences (i + 1) rest with
        | none => none
        | some ms =>
          some (⟨mcqQuestion sentence,
                 option_labels.zip (shuffle i (pyStrip sentence :: distractors)),
                 pyStrip sentence⟩ :: ms)
    else mcqLoop sample shuffle sentences (i + 1) rest

/-- `generate_mcq_questions` (`smart.py` lines 50-74), parametrised by
the randomness oracles.  `none` models the call raising (a failed
`random.sample`); `some mcqs` models a normal return. -/
def generate_mcq_questions (sample : Nat → List PyStr → Nat → Option (List PyStr))
    (shuffle : Nat → List PyStr → List PyStr) (text : PyStr) :
    Option (List MCQ) :=
  let sentences := pySentences text
  mcqLoop sample shuffle sentences 0 sentences

/-- Contract of `random.sample(pop, k)`: it succeeds exactly when
`k ≤ pop.length`, and a successful result is `k` elements drawn from
`pop` without replacement (a sub-permutation of the population). -/
def SampleOK (sample : Nat → List PyStr → Nat → Option (List PyStr)) : Prop :=
  (∀ i pop k l, sample i pop k = some l → l.length = k ∧ l.Subperm pop) ∧
  (∀ i pop k, (sample i pop k).isSome = true ↔ k ≤ pop.length)

/-- Contract of `random.shuffle`: the result is a permutation of the
input. -/
def ShuffleOK (shuffle : Nat → List PyStr → List PyStr) : Prop :=
  ∀ i l, (shuffle i l).Perm l

/-- A concrete oracle satisfying `SampleOK` (used to witness theorems):
take the first `k` elements of the population. -/
def defaultSample (_i : Nat) (pop : List PyStr) (k : Nat) :
    Option (List PyStr) :=
  if k ≤ pop.length then some (pop.take k) else none

/-- A concrete oracle satisfying `ShuffleOK`: the identity permutation. -/
def defaultShuffle (_i : Nat) (l : List PyStr) : List PyStr := l

/-- The flashcard built from one qualifying line (`smart.py` lines
199-200): `term, definition = line.split(":", 1)` followed by
`f"{term.strip()}: {definition.strip()}"`. -/
def flashcardOf (line : PyStr) : PyStr :=
  pyStrip (pySplitMax1 ':' line).1 ++ (": ").toList ++
    pyStrip (pySplitMax1 ':' line).2

/-- The flashcard generation loop of the `Flashcard Generator` branch
(`smart.py` lines 194-200): split the input into lines and emit one
flashcard per line containing a colon. -/
def generate_flashcards (flashcard_text : PyStr) : List PyStr :=
  let flashcard_text_lines := pyLines flashcard_text
  flashcard_text_lines.foldl
    (fun flashcards line =>
      if hasColon line then flashcards ++ [flashcardOf line]
      else flashcards)
    []

/-- Observable events of `hf_api_with_retries`: issuing the HTTP call
for a given attempt number, and sleeping for a given delay. -/
inductive RetryEvent where
  | call (attempt : Nat)
  | sleep (delay : Nat)
deriving DecidableEq

/-- The `for attempt in range(retries)` loop of `hf_api_with_retries`
(`smart.py` lines 24-33), with the outbound `requests.post` modelled as
the oracle `f : Nat → Except e r` giving each attempt's outcome.
`remaining` counts the attempts still allowed (so the loop runs while
`remaining > 0`, matching `attempt < retries`); the returned event list
records the calls made and the sleeps taken, in order.  A `none` result
models the Python function falling off the loop and returning `None`
(only possible when `retries = 0`); `some (.error e)` models `raise e`;
`some (.ok r)` models `return response`. -/
def retryLoop (f : Nat → Except ε ρ) (delay attempt : Nat) :
    Nat → Option (Except ε ρ) × List RetryEvent
  | 0 => (none, [])
  | remaining + 1 =>
    match f attempt with
    | .ok r => (some (.ok r), [.call attempt])
    | .error e =>
      match remaining with
      | 0 => (some (.error e), [.call attempt])
      | more + 1 =>
        let p := retryLoop f delay (attempt + 1) (more + 1)
        (p.1, .call attempt :: .sleep delay :: p.2)

/-- `hf_api_with_retries` (`smart.py` lines 23-33); the Python defaults
are `retries = 3`, `delay = 5`. -/
def hf_api_with_retries (f : Nat → Except ε ρ) (retries delay : Nat) :
    Option (Except ε ρ) × List RetryEvent :=
  retryLoop f delay 0 retries

/-- Python truthiness of an optional string: `None` and the empty
string are falsy, any other string is truthy (this is what
`all([QA_KEY, SUMMARIZE_KEY])` tests on `smart.py` line 15). -/
def pyTruthyStr : Option PyStr → Bool
  | none => false
  | some s => !s.isEmpty

/-- The startup credential gate (`smart.py` lines 12-17): the program
proceeds past `st.stop()` to the UI setup exactly when this is `true`;
when it is `false` the script halts before `st.set_page_config`
(line 77), i.e. before any UI is rendered. -/
def startup_check (qa_key summarize_key : Option PyStr) : Bool :=
  pyTruthyStr qa_key && pyTruthyStr summarize_key

/-- The whole startup read-and-check: the two credentials are read from
the process environment (`os.getenv("HUGGINGFACE_QA_KEY")`,
`os.getenv("HUGGINGFACE_SUMMARY_KEY")`, `smart.py` lines 12-13) and
gated by `startup_check`; `true` means execution reaches the UI setup. -/
def smartStartup (env : PyStr → Option PyStr) : Bool :=
  startup_check (env ("HUGGINGFACE_QA_KEY").toList)
    (env ("HUGGINGFACE_SUMMARY_KEY").toList)

/-- What `generate_mcq_questions` emits for one qualifying fragment
`sentence` of the split `sentences`: some list of three distractors
drawn without replacement from the fragments different from `sentence`,
and some ordering `options` of the stripped fragment together with those
distractors, labelled `A`, `B`, `C`, `D` in order. -/
def MCQMatches (sentences : List PyStr) (sentence : PyStr) (m : MCQ) : Prop :=
  ∃ distractors options,
    distractors.length = 3 ∧
    distractors.Subperm (sentences.filter (fun s => decide (s ≠ sentence))) ∧
    options.Perm (pyStrip sentence :: distractors) ∧
    m = ⟨mcqQuestion sentence, option_labels.zip options, pyStrip sentence⟩

/-- Modelled from the spec's words, for comparison with the code: the
question template `What is the meaning of '<fragment>?'` applied to the
raw fragment, with no stripping. -/
def specRawNormalQuestion (sentence : PyStr) : PyStr :=
  ("What is the meaning of '").toList ++ sentence ++ ("?'").toList

/-- Concrete input whose first `". "`-fragment carries trailing
whitespace: `"a b c d e f . z"` splits into `["a b c d e f ", "z"]`. -/
def trailingSpaceText : PyStr := ("a b c d e f . z").toList

/-- Concrete input for the multiple-choice witnesses: splits into one
qualifying fragment (seven tokens) and three short ones. -/
def mcqSampleText : PyStr := ("a b c d e f g. b. c. d").toList

/-- The single tuple `generate_mcq_questions defaultSample
defaultShuffle` emits on `mcqSampleText`. -/
def mcqSampleHead : MCQ :=
  ⟨("What is described by the following statement?\n'a b c d e f g'").toList,
   [('A', ("a b c d e f g").toList), ('B', ("b").toList),
    ('C', ("c").toList), ('D', ("d").toList)],
   ("a b c d e f g").toList⟩

/-- The value `generate_mcq_questions defaultSample defaultShuffle`
returns on `mcqSampleText`. -/
def mcqSampleOutput : List MCQ := [mcqSampleHead]

/-- Concrete input with a qualifying fragment but only two fragments in
total, so the distractor population is too small. -/
def smallMcqText : PyStr := ("a b c d e f. x").toList

/-- Concrete input for the flashcard witnesses: three lines, two of
which contain a colon. -/
def flashSampleText : PyStr := ("Term: Definition\nno colon\n A : B ").toList

/-- Concrete qualifying flashcard line for the round-trip witness. -/
def roundLine : PyStr := (" Python : a language ").toList

/-- Concrete outcome oracle for the retry witness: the first attempt
fails, every later attempt succeeds. -/
def fRetry : Nat → Except Nat Nat :=
  fun attempt => if attempt = 0 then .error 0 else .ok 1

/-- Concrete environment in which both credential variables are present
but the QA key is set to the empty string. -/
def emptyQaEnv : PyStr → Option PyStr :=
  fun k => if k = ("HUGGINGFACE_QA_KEY").toList then some [] else some (("k").toList)

/-- Concrete environment in which both credential variables are present
with non-empty values. -/
def presentEnv : PyStr → Option PyStr := fun _ => some (("key").toList)

/-- A fold that conditionally appends one image per element is the map
of the filter: the accumulator pattern shared by the Python `for` loops
of `generate_normal_questions` and the flashcard branch. -/
theorem foldl_filter_append {α β : Type} (p : α → Bool) (f : α → β) :
    ∀ (l : List α) (acc : List β),
      l.foldl (fun r x => if p x then r ++ [f x] else r) acc =
        acc ++ (l.filter p).map f := by
  intro l
  induction l with
  | nil => intro acc; simp
  | cons a l ih =>
    intro acc
    by_cases h : p a <;> simp [List.filter_cons, h, ih]

/-- `generate_normal_questions` is the templated map over the
qualifying fragments, in split order. -/
theorem generate_normal_questions_eq (text : PyStr) :
    generate_normal_questions text =
      ((pySentences text).filter longSentence).map normalQuestion := by
  simpa [generate_normal_questions] using
    foldl_filter_append longSentence normalQuestion (pySentences text) []

/-- The flashcard loop is the templated map over the lines containing a
colon, in line order. -/
theorem generate_flashcards_eq (text : PyStr) :
    generate_flashcards text =
      ((pyLines text).filter hasColon).map flashcardOf := by
  simpa [generate_flashcards] using
    foldl_filter_append hasColon flashcardOf (pyLines text) []

/-- `dropWhile` is idempotent. -/
theorem dropWhile_dropWhile {α : Type} (p : α → Bool) (l : List α) :
    (l.dropWhile p).dropWhile p = l.dropWhile p := by
  induction l with
  | nil => rfl
  | cons a l ih => by_cases h : p a <;> simp [List.dropWhile_cons, h, ih]

/-- The head of a non-empty `dropWhile` result fails the predicate. -/
theorem dropWhile_head_false {α : Type} (p : α → Bool) :
    ∀ (l : List α) (a : α) (m : List α), l.dropWhile p = a :: m → p a = false := by
  intro l
  induction l with
  | nil => intro a m h; simp at h
  | cons b l ih =>
    intro a m h
    by_cases hb : p b
    · rw [List.dropWhile_cons_of_pos hb] at h
      exact ih a m h
    · rw [List.dropWhile_cons_of_neg hb] at h
      cases h
      exact Bool.eq_false_iff.mpr hb

/-- Appending one element to the scanned list either survives the
`dropWhile` untouched behind the kept part, or is itself scanned when
everything before it was dropped. -/
theorem dropWhile_append_single {α : Type} (p : α → Bool) (a : α) (l : List α) :
    (l ++ [a]).dropWhile p =
      if (l.dropWhile p).isEmpty then [a].dropWhile p
      else l.dropWhile p ++ [a] := by
  induction l with
  | nil => simp
  | cons b l ih =>
    by_cases hb : p b <;> simp [List.dropWhile_cons, hb, ih]

/-- A list whose head fails the whitespace test still has that head
after trimming on the right, so trimming it on the left changes
nothing. -/
theorem dropWhile_strip_right {α : Type} (p : α → Bool) (a : α) (m : List α)
    (ha : p a = false) :
    (((a :: m).reverse.dropWhile p).reverse).dropWhile p =
      ((a :: m).reverse.dropWhile p).reverse := by
  rw [List.reverse_cons, dropWhile_append_single]
  by_cases he : (m.reverse.dropWhile p).isEmpty
  · simp [he, List.dropWhile_cons, ha]
  · rw [if_neg he, List.reverse_append]
    simp only [List.reverse_cons, List.reverse_nil, List.nil_append,
      List.singleton_append]
    rw [List.dropWhile_cons_of_neg (by simp [ha])]

/-- Python's `strip` is idempotent. -/
theorem pyStrip_idem (l : PyStr) : pyStrip (pyStrip l) = pyStrip l := by
  rcases hm : l.dropWhile isSpace with _ | ⟨a, m⟩
  · have h0 : pyStrip l = [] := by
      rw [pyStrip, hm]
      rfl
    rw [h0]
    rfl
  · have ha : isSpace a = false := dropWhile_head_false isSpace l a m hm
    have hstrip : pyStrip l = ((a :: m).reverse.dropWhile isSpace).reverse := by
      rw [pyStrip, hm]
    rw [hstrip, pyStrip, dropWhile_strip_right isSpace a m ha,
      List.reverse_reverse, dropWhile_dropWhile]

/-- Stripping removes a leading whitespace character. -/
theorem pyStrip_cons_of_space (c : Char) (l : PyStr) (h : isSpace c = true) :
    pyStrip (c :: l) = pyStrip l := by
  rw [pyStrip, pyStrip, List.dropWhile_cons_of_pos h]

/-- Every character of the stripped string occurs in the original. -/
theorem mem_of_mem_pyStrip (x : Char) (l : PyStr) (h : x ∈ pyStrip l) :
    x ∈ l := by
  rw [pyStrip, List.mem_reverse] at h
  have h1 : x ∈ (l.dropWhile isSpace).reverse :=
    (List.dropWhile_sublist _).subset h
  rw [List.mem_reverse] at h1
  exact (List.dropWhile_sublist _).subset h1

/-- A one-character split never produces the empty list of pieces. -/
theorem splitOnSep1_ne_nil (c : Char) (l : PyStr) : splitOnSep1 c l ≠ [] := by
  cases l with
  | nil => simp [splitOnSep1]
  | cons a rest =>
    by_cases h : a = c
    · simp [splitOnSep1, h]
    · rcases hs : splitOnSep1 c rest with _ | ⟨x, xs⟩ <;>
        simp [splitOnSep1, h, hs]

/-- Splitting after an initial separator-free chunk yields that chunk
followed by the split of the remainder. -/
theorem splitOnSep1_append (c : Char) (t r : PyStr) (hc : c ∉ t) :
    splitOnSep1 c (t ++ c :: r) = t :: splitOnSep1 c r := by
  induction t with
  | nil => simp [splitOnSep1]
  | cons a t ih =>
    have ha : ¬ a = c := by
      rintro rfl
      exact hc (List.mem_cons_self _ _)
    have hct : c ∉ t := fun h => hc (List.mem_cons_of_mem _ h)
    simp [splitOnSep1, ha, ih hct]

/-- Rejoining the pieces of a one-character split recovers the input. -/
theorem joinSep_splitOnSep1 (c : Char) : ∀ r : PyStr,
    joinSep c (splitOnSep1 c r) = r := by
  intro r
  induction r with
  | nil => rfl
  | cons a r ih =>
    by_cases h : a = c
    · subst h
      rcases hs : splitOnSep1 a r with _ | ⟨y, ys⟩
      · exact absurd hs (splitOnSep1_ne_nil _ _)
      · rw [hs] at ih
        simp [splitOnSep1, hs, joinSep, ih]
    · rcases hs : splitOnSep1 c r with _ | ⟨x, xs⟩
      · exact absurd hs (splitOnSep1_ne_nil _ _)
      · rw [hs] at ih
        have hstep : splitOnSep1 c (a :: r) = (a :: x) :: xs := by
          simp [splitOnSep1, h, hs]
        rw [hstep]
        cases xs with
        | nil => simp only [joinSep] at ih ⊢; rw [ih]
        | cons z zs =>
          simp only [joinSep, List.cons_append] at ih ⊢
          rw [ih]

/-- `split(sep, 1)` after a separator-free chunk: the chunk is the
first component and everything after the first separator, colons
included, is the second. -/
theorem pySplitMax1_append (c : Char) (t r : PyStr) (hc : c ∉ t) :
    pySplitMax1 c (t ++ c :: r) = (t, r) := by
  rcases hs : splitOnSep1 c r with _ | ⟨y, ys⟩
  · exact absurd hs (splitOnSep1_ne_nil _ _)
  · have hj : joinSep c (y :: ys) = r := by
      rw [← hs]
      exact joinSep_splitOnSep1 c r
    rw [pySplitMax1, splitOnSep1_append c t r hc, hs]
    simp [hj]

/-- When `c` occurs in `l`, `dropWhile (· ≠ c)` reaches it. -/
theorem dropWhile_ne_eq_cons (c : Char) : ∀ l : PyStr, c ∈ l →
    ∃ r, l.dropWhile (fun x => decide (x ≠ c)) = c :: r := by
  intro l
  induction l with
  | nil => intro h; cases h
  | cons a l ih =>
    intro h
    by_cases hac : a = c
    · subst hac
      exact ⟨l, by rw [List.dropWhile_cons_of_neg (by simp)]⟩
    · have hcl : c ∈ l := by
        rcases List.mem_cons.mp h with h1 | h1
        · exact absurd h1.symm hac
        · exact h1
      rcases ih hcl with ⟨r, hr⟩
      exact ⟨r, by rw [List.dropWhile_cons_of_pos (by simp [hac]), hr]⟩

/-- For a line containing the separator, `split(sep, 1)` is exactly the
split at the FIRST occurrence: the part strictly before it and the part
strictly after it. -/
theorem pySplitMax1_eq_of_mem (c : Char) (l : PyStr) (h : c ∈ l) :
    pySplitMax1 c l =
      (l.takeWhile (fun x => decide (x ≠ c)),
       (l.dropWhile (fun x => decide (x ≠ c))).drop 1) := by
  obtain ⟨r, hr⟩ := dropWhile_ne_eq_cons c l h
  have hct : c ∉ l.takeWhile (fun x => decide (x ≠ c)) := by
    intro hmem
    have := List.mem_takeWhile_imp hmem
    simp at this
  have hsplit : l = l.takeWhile (fun x => decide (x ≠ c)) ++ c :: r := by
    conv_lhs => rw [← List.takeWhile_append_dropWhile
      (fun x => decide (x ≠ c)) l]
    rw [hr]
  calc pySplitMax1 c l
      = pySplitMax1 c (l.takeWhile (fun x => decide (x ≠ c)) ++ c :: r) := by
        rw [← hsplit]
    _ = (l.takeWhile (fun x => decide (x ≠ c)), r) :=
        pySplitMax1_append _ _ _ hct
    _ = (l.takeWhile (fun x => decide (x ≠ c)),
         (l.dropWhile (fun x => decide (x ≠ c))).drop 1) := by
        rw [hr]
        rfl

/-- The take-first-k oracle satisfies the `random.sample` contract. -/
theorem defaultSample_ok : SampleOK defaultSample := by
  constructor
  · intro i pop k l h
    by_cases hk : k ≤ pop.length
    · rw [defaultSample, if_pos hk] at h
      cases h
      constructor
      · rw [List.length_take]
        exact Nat.min_eq_left hk
      · exact (List.take_sublist _ _).subperm
    · rw [defaultSample, if_neg hk] at h
      cases h
  · intro i pop k
    by_cases hk : k ≤ pop.length <;> simp [defaultSample, hk]

/-- The identity oracle satisfies the `random.shuffle` contract. -/
theorem defaultShuffle_ok : ShuffleOK defaultShuffle :=
  fun _ l => List.Perm.refl l

/-- Each element on the right of a `Forall₂` is related to some element
on the left. -/
theorem forall2_mem_right {α β : Type} {R : α → β → Prop} :
    ∀ {l₁ : List α} {l₂ : List β}, List.Forall₂ R l₁ l₂ →
      ∀ b ∈ l₂, ∃ a ∈ l₁, R a b := by
  intro l₁ l₂ h
  induction h with
  | nil => intro b hb; cases hb
  | cons hr _ ih =>
    intro b hb
    rcases List.mem_cons.mp hb with rfl | hb
    · exact ⟨_, List.mem_cons_self _ _, hr⟩
    · rcases ih b hb with ⟨a, ha, hra⟩
      exact ⟨a, List.mem_cons_of_mem _ ha, hra⟩

/-- Main characterization of the MCQ loop: a successful run emits, in
order, one matching tuple per qualifying fragment of the remaining
sentence list. -/
theorem mcqLoop_some_spec
    {sample : Nat → List PyStr → Nat → Option (List PyStr)}
    {shuffle : Nat → List PyStr → List PyStr}
    (hsam : SampleOK sample) (hsh : ShuffleOK shuffle)
    (sentences : List PyStr) :
    ∀ (rest : List PyStr) (i : Nat) (ms : List MCQ),
      mcqLoop sample shuffle sentences i rest = some ms →
      List.Forall₂ (MCQMatches sentences) (rest.filter longSentence) ms := by
  intro rest
  induction rest with
  | nil =>
    intro i ms h
    simp only [mcqLoop, Option.some.injEq] at h
    subst h
    simp
  | cons sentence rest ih =>
    intro i ms h
    by_cases hq : longSentence sentence
    · simp only [mcqLoop] at h
      rw [if_pos hq] at h
      rcases hsample : sample i
          (sentences.filter (fun s => decide (s ≠ sentence))) 3 with _ | distractors
      · rw [hsample] at h
        cases h
      · rw [hsample] at h
        rcases hrec : mcqLoop sample shuffle sentences (i + 1) rest with _ | ms'
        · rw [hrec] at h
          cases h
        · rw [hrec] at h
          simp only [Option.some.injEq] at h
          subst h
          rw [List.filter_cons_of_pos hq]
          refine List.Forall₂.cons ?_ (ih _ _ hrec)
          refine ⟨distractors, shuffle i (pyStrip sentence :: distractors),
            (hsam.1 _ _ _ _ hsample).1, (hsam.1 _ _ _ _ hsample).2,
            hsh i _, rfl⟩
    · simp only [mcqLoop] at h
      rw [if_neg hq] at h
      rw [List.filter_cons_of_neg (by simpa using hq)]
      exact ih _ _ h

/-- If some qualifying fragment of the remaining list has a distractor
population smaller than three, the loop aborts (the failed
`random.sample` raises). -/
theorem mcqLoop_eq_none
    {sample : Nat → List PyStr → Nat → Option (List PyStr)}
    {shuffle : Nat → List PyStr → List PyStr}
    (hsam : SampleOK sample) (sentences : List PyStr) :
    ∀ (rest : List PyStr) (i : Nat) (s : PyStr), s ∈ rest →
      longSentence s = true →
      (sentences.filter (fun x => decide (x ≠ s))).length < 3 →
      mcqLoop sample shuffle sentences i rest = none := by
  intro rest
  induction rest with
  | nil => intro i s hs; cases hs
  | cons sentence rest ih =>
    intro i s hs hq hlen
    rcases List.mem_cons.mp hs with rfl | hs'
    · simp only [mcqLoop]
      rw [if_pos hq]
      have hnone : sample i (sentences.filter (fun x => decide (x ≠ s))) 3 = none := by
        rcases ho : sample i (sentences.filter (fun x => decide (x ≠ s))) 3 with _ | l
        · rfl
        · exfalso
          have h3 : (3 : Nat) ≤ (sentences.filter (fun x => decide (x ≠ s))).length :=
            (hsam.2 i _ 3).mp (by rw [ho]; rfl)
          omega
      rw [hnone]
    · by_cases hq1 : longSentence sentence
      · simp only [mcqLoop]
        rw [if_pos hq1]
        rcases ho : sample i
            (sentences.filter (fun x => decide (x ≠ sentence))) 3 with _ | ds
        · rfl
        · rw [ih _ _ hs' hq hlen]
      · simp only [mcqLoop]
        rw [if_neg hq1]
        exact ih _ _ hs' hq hlen

/-- Removing the occurrences of a present element strictly shrinks a
list. -/
theorem length_filter_ne_lt (l : List PyStr) (a : PyStr) (h : a ∈ l) :
    (l.filter (fun x => decide (x ≠ a))).length < l.length := by
  induction l with
  | nil => cases h
  | cons b l ih =>
    rcases List.mem_cons.mp h with rfl | h'
    · rw [List.filter_cons_of_neg (by simp)]
      exact Nat.lt_succ_of_le (List.length_filter_le _ _)
    · by_cases hb : b = a
      · subst hb
        rw [List.filter_cons_of_neg (by simp)]
        exact Nat.lt_succ_of_le (List.length_filter_le _ _)
      · rw [List.filter_cons_of_pos (by simp [hb])]
        simpa using Nat.succ_lt_succ (ih h')

/-- Claim C1 counterexample: the claim's literal template
`What is the meaning of '<fragment>?'` with the raw fragment does not
match the code on an input whose qualifying fragment carries trailing
whitespace — `generate_normal_questions` strips the fragment before
inserting it into the template. -/
theorem claim_C1_counterexample :
    generate_normal_questions trailingSpaceText ≠
      ((pySentences trailingSpaceText).filter longSentence).map
        specRawNormalQuestion := by
  decide

/-- Claim C1 (amended): `generate_normal_questions` splits the text on
the literal `". "` and, for every fragment with more than five
whitespace-separated tokens, emits
`What is the meaning of '<fragment stripped of surrounding whitespace>?'`,
exactly one question per qualifying fragment in split order, with no
deduplication and no bound on the output count. -/
theorem claim_C1_normal_questions (text : PyStr) :
    generate_normal_questions text =
      ((pySentences text).filter longSentence).map normalQuestion ∧
    (generate_normal_questions text).length =
      ((pySentences text).filter longSentence).length := by
  refine ⟨generate_normal_questions_eq text, ?_⟩
  rw [generate_normal_questions_eq text, List.length_map]

/-- Claim C2: on every input on which it returns,
`generate_mcq_questions` splits the text on `". "`, applies the same
more-than-five-token filter, and emits exactly one
(question, labeled options, correct answer) tuple per qualifying
fragment, in order; each tuple's options are a shuffle of the stripped
fragment (the correct answer) together with three distractors drawn
without replacement from the other fragments, labelled `A`-`D`. -/
theorem claim_C2_mcq_structure
    (sample : Nat → List PyStr → Nat → Option (List PyStr))
    (shuffle : Nat → List PyStr → List PyStr)
    (hsam : SampleOK sample) (hsh : ShuffleOK shuffle)
    (text : PyStr) (ms : List MCQ)
    (h : generate_mcq_questions sample shuffle text = some ms) :
    List.Forall₂ (MCQMatches (pySentences text))
      ((pySentences text).filter longSentence) ms ∧
    ms.length = ((pySentences text).filter longSentence).length := by
  have h' : mcqLoop sample shuffle (pySentences text) 0 (pySentences text) =
      some ms := h
  have hf := mcqLoop_some_spec hsam hsh (pySentences text) (pySentences text) 0 ms h'
  exact ⟨hf, hf.length_eq.symm⟩

/-- Witness for claim C2 at a concrete input and oracle. -/
theorem claim_C2_witness :
    List.Forall₂ (MCQMatches (pySentences mcqSampleText))
      ((pySentences mcqSampleText).filter longSentence) mcqSampleOutput ∧
    mcqSampleOutput.length =
      ((pySentences mcqSampleText).filter longSentence).length :=
  claim_C2_mcq_structure defaultSample defaultShuffle defaultSample_ok
    defaultShuffle_ok mcqSampleText mcqSampleOutput (by decide)

/-- Claim C3: `generate_mcq_questions` raises when some qualifying
fragment has fewer than three other fragments to sample distractors
from; in particular it raises whenever a qualifying fragment exists but
the split has fewer than four fragments in total. -/
theorem claim_C3_mcq_raises
    (sample : Nat → List PyStr → Nat → Option (List PyStr))
    (shuffle : Nat → List PyStr → List PyStr)
    (hsam : SampleOK sample) (text : PyStr) :
    ((∃ s, s ∈ pySentences text ∧ longSentence s = true ∧
        ((pySentences text).filter (fun x => decide (x ≠ s))).length < 3) →
      generate_mcq_questions sample shuffle text = none) ∧
    (((∃ s, s ∈ pySentences text ∧ longSentence s = true) ∧
        (pySentences text).length < 4) →
      generate_mcq_questions sample shuffle text = none) := by
  constructor
  · rintro ⟨s, hs, hq, hlen⟩
    exact mcqLoop_eq_none hsam (pySentences text) (pySentences text) 0 s hs hq hlen
  · rintro ⟨⟨s, hs, hq⟩, hlt⟩
    have h1 := length_filter_ne_lt (pySentences text) s hs
    exact mcqLoop_eq_none hsam (pySentences text) (pySentences text) 0 s hs hq
      (by omega)

/-- Witness for claim C3: a qualifying fragment with only one other
fragment makes the call raise. -/
theorem claim_C3_witness :
    generate_mcq_questions defaultSample defaultShuffle smallMcqText = none :=
  (claim_C3_mcq_raises defaultSample defaultShuffle defaultSample_ok
      smallMcqText).2
    ⟨⟨("a b c d e f").toList, by decide, by decide⟩, by decide⟩

/-- Claim C4: whenever `generate_mcq_questions` returns, no emitted
tuple's distractor was drawn from a fragment equal to the fragment the
tuple was built from — the distractor population excludes the source
fragment. -/
theorem claim_C4_distractor_exclusive
    (sample : Nat → List PyStr → Nat → Option (List PyStr))
    (shuffle : Nat → List PyStr → List PyStr)
    (hsam : SampleOK sample) (hsh : ShuffleOK shuffle)
    (text : PyStr) (ms : List MCQ)
    (h : generate_mcq_questions sample shuffle text = some ms) :
    List.Forall₂
      (fun sentence m => ∃ distractors options,
        distractors.length = 3 ∧
        (∀ d ∈ distractors, d ≠ sentence) ∧
        options.Perm (pyStrip sentence :: distractors) ∧
        m = ⟨mcqQuestion sentence, option_labels.zip options, pyStrip sentence⟩)
      ((pySentences text).filter longSentence) ms := by
  have h' : mcqLoop sample shuffle (pySentences text) 0 (pySentences text) =
      some ms := h
  refine (mcqLoop_some_spec hsam hsh (pySentences text) (pySentences text) 0 ms h').imp
    ?_
  intro sentence m hm
  rcases hm with ⟨ds, os, h3, hsub, hperm, hmeq⟩
  refine ⟨ds, os, h3, ?_, hperm, hmeq⟩
  intro d hd
  have hdm : d ∈ (pySentences text).filter (fun s => decide (s ≠ sentence)) :=
    hsub.subset hd
  have h2 := List.mem_filter.mp hdm
  simpa using h2.2

/-- Witness for claim C4 at a concrete input and oracle. -/
theorem claim_C4_witness :
    List.Forall₂
      (fun sentence m => ∃ distractors options,
        distractors.length = 3 ∧
        (∀ d ∈ distractors, d ≠ sentence) ∧
        options.Perm (pyStrip sentence :: distractors) ∧
        m = ⟨mcqQuestion sentence, option_labels.zip options, pyStrip sentence⟩)
      ((pySentences mcqSampleText).filter longSentence) mcqSampleOutput :=
  claim_C4_distractor_exclusive defaultSample defaultShuffle defaultSample_ok
    defaultShuffle_ok mcqSampleText mcqSampleOutput (by decide)

/-- Claim C5: flashcard generation splits the input into lines, keeps
exactly the lines containing a colon, and for each such line the first
colon divides it into the term (text before it) and the definition
(text after it), both trimmed in the stored flashcard. -/
theorem claim_C5_flashcards (text : PyStr) :
    generate_flashcards text =
      ((pyLines text).filter hasColon).map flashcardOf ∧
    (generate_flashcards text).length =
      ((pyLines text).filter hasColon).length ∧
    ∀ line ∈ pyLines text, ':' ∈ line →
      pySplitMax1 ':' line =
        (line.takeWhile (fun x => decide (x ≠ ':')),
         (line.dropWhile (fun x => decide (x ≠ ':'))).drop 1) := by
  refine ⟨generate_flashcards_eq text, ?_, ?_⟩
  · rw [generate_flashcards_eq text, List.length_map]
  · intro line _ hc
    exact pySplitMax1_eq_of_mem ':' line hc

/-- Witness for claim C5 at a concrete line of a concrete input. -/
theorem claim_C5_witness :
    pySplitMax1 ':' (("Term: Definition").toList) =
      ((("Term: Definition").toList).takeWhile (fun x => decide (x ≠ ':')),
       ((("Term: Definition").toList).dropWhile (fun x => decide (x ≠ ':'))).drop 1) :=
  (claim_C5_flashcards flashSampleText).2.2 (("Term: Definition").toList)
    (by decide) (by decide)

/-- Claim C6: all three local text generators are order-preserving
single passes — the normal questions and flashcards are the map of
their template over the filtered split (so they appear in split order),
and the multiple-choice tuples correspond one-to-one, in order, to the
qualifying fragments. -/
theorem claim_C6_order_preserving
    (sample : Nat → List PyStr → Nat → Option (List PyStr))
    (shuffle : Nat → List PyStr → List PyStr)
    (hsam : SampleOK sample) (hsh : ShuffleOK shuffle) (text : PyStr) :
    generate_normal_questions text =
      ((pySentences text).filter longSentence).map normalQuestion ∧
    generate_flashcards text =
      ((pyLines text).filter hasColon).map flashcardOf ∧
    ∀ ms, generate_mcq_questions sample shuffle text = some ms →
      List.Forall₂ (MCQMatches (pySentences text))
        ((pySentences text).filter longSentence) ms := by
  refine ⟨generate_normal_questions_eq text, generate_flashcards_eq text, ?_⟩
  intro ms h
  exact mcqLoop_some_spec hsam hsh (pySentences text) (pySentences text) 0 ms h

/-- Witness for claim C6 at a concrete input and oracle. -/
theorem claim_C6_witness :
    generate_normal_questions mcqSampleText =
      ((pySentences mcqSampleText).filter longSentence).map normalQuestion :=
  (claim_C6_order_preserving defaultSample defaultShuffle defaultSample_ok
    defaultShuffle_ok mcqSampleText).1

/-- Claim C7: with the Python defaults (`retries = 3`, `delay = 5`) the
retry wrapper issues up to three calls, sleeps the fixed delay after
each failed attempt that is not the last, returns the response of the
first successful attempt, and re-raises the final attempt's exception
when all three fail, with no sleep after the last failure. -/
theorem claim_C7_retry {ε ρ : Type} (f : Nat → Except ε ρ) :
    (∀ r, f 0 = .ok r →
      hf_api_with_retries f 3 5 = (some (.ok r), [.call 0])) ∧
    (∀ e r, f 0 = .error e → f 1 = .ok r →
      hf_api_with_retries f 3 5 =
        (some (.ok r), [.call 0, .sleep 5, .call 1])) ∧
    (∀ e₀ e₁ r, f 0 = .error e₀ → f 1 = .error e₁ → f 2 = .ok r →
      hf_api_with_retries f 3 5 =
        (some (.ok r), [.call 0, .sleep 5, .call 1, .sleep 5, .call 2])) ∧
    (∀ e₀ e₁ e₂, f 0 = .error e₀ → f 1 = .error e₁ → f 2 = .error e₂ →
      hf_api_with_retries f 3 5 =
        (some (.error e₂), [.call 0, .sleep 5, .call 1, .sleep 5, .call 2])) := by
  refine ⟨?_, ?_, ?_, ?_⟩
  · intro r h0
    simp [hf_api_with_retries, retryLoop, h0]
  · intro e r h0 h1
    simp [hf_api_with_retries, retryLoop, h0, h1]
  · intro e₀ e₁ r h0 h1 h2
    simp [hf_api_with_retries, retryLoop, h0, h1, h2]
  · intro e₀ e₁ e₂ h0 h1 h2
    simp [hf_api_with_retries, retryLoop, h0, h1, h2]

/-- Witness for claim C7: first attempt fails, second succeeds, with
one sleep in between. -/
theorem claim_C7_witness :
    hf_api_with_retries fRetry 3 5 =
      (some (.ok 1), [.call 0, .sleep 5, .call 1]) :=
  (claim_C7_retry fRetry).2.1 0 1 rfl rfl

/-- Claim C8 counterexample: both credential variables can be present
in the environment (the QA key bound to the empty string) while the
program still halts before the UI, so presence alone does not imply
that execution proceeds. -/
theorem claim_C8_counterexample :
    (emptyQaEnv (("HUGGINGFACE_QA_KEY").toList)).isSome = true ∧
    (emptyQaEnv (("HUGGINGFACE_SUMMARY_KEY").toList)).isSome = true ∧
    smartStartup emptyQaEnv = false := by
  decide

/-- Claim C8 (amended): the two credential values are read from the
process environment at startup; if either is absent the program halts
before the UI is rendered, and execution proceeds to UI setup exactly
when both are present with non-empty values (a present but empty value
also halts, because Python's `all` treats the empty string as falsy). -/
theorem claim_C8_startup (env : PyStr → Option PyStr) :
    ((env (("HUGGINGFACE_QA_KEY").toList) = none ∨
      env (("HUGGINGFACE_SUMMARY_KEY").toList) = none) →
      smartStartup env = false) ∧
    (smartStartup env = true ↔
      (∃ s, env (("HUGGINGFACE_QA_KEY").toList) = some s ∧ s ≠ []) ∧
      (∃ t, env (("HUGGINGFACE_SUMMARY_KEY").toList) = some t ∧ t ≠ [])) := by
  constructor
  · rintro (h | h)
    · rw [smartStartup, startup_check, h]
      rfl
    · rw [smartStartup, startup_check, h]
      simp [pyTruthyStr]
  · rw [smartStartup, startup_check]
    cases hqa : env (("HUGGINGFACE_QA_KEY").toList) with
    | none => simp [pyTruthyStr]
    | some s =>
      cases hsk : env (("HUGGINGFACE_SUMMARY_KEY").toList) with
      | none => simp [pyTruthyStr]
      | some t =>
        simp [pyTruthyStr, List.isEmpty_iff]

/-- Witness for claim C8: an environment with both values present and
non-empty proceeds to the UI. -/
theorem claim_C8_witness : smartStartup presentEnv = true :=
  (claim_C8_startup presentEnv).2.mpr
    ⟨⟨("key").toList, rfl, by decide⟩, ⟨("key").toList, rfl, by decide⟩⟩

/-- Claim C9: parsing the stored flashcard string
`<term>: <definition>` the way the display code does (split on the
first colon, trim both parts) recovers exactly the term and definition
extracted from the original line. -/
theorem claim_C9_roundtrip (line : PyStr) (h : ':' ∈ line) :
    pyStrip (pySplitMax1 ':' (flashcardOf line)).1 =
      pyStrip (pySplitMax1 ':' line).1 ∧
    pyStrip (pySplitMax1 ':' (flashcardOf line)).2 =
      pyStrip (pySplitMax1 ':' line).2 := by
  have hcolon : ':' ∉ pyStrip (pySplitMax1 ':' line).1 := by
    intro hmem
    have h1 : ':' ∈ (pySplitMax1 ':' line).1 :=
      mem_of_mem_pyStrip ':' _ hmem
    rw [pySplitMax1_eq_of_mem ':' line h] at h1
    have := List.mem_takeWhile_imp h1
    simp at this
  have hfc : flashcardOf line =
      pyStrip (pySplitMax1 ':' line).1 ++
        ':' :: (' ' :: pyStrip (pySplitMax1 ':' line).2) := by
    rw [flashcardOf, List.append_assoc]
    rfl
  have hsplit : pySplitMax1 ':' (flashcardOf line) =
      (pyStrip (pySplitMax1 ':' line).1,
       ' ' :: pyStrip (pySplitMax1 ':' line).2) := by
    rw [hfc]
    exact pySplitMax1_append ':' _ _ hcolon
  rw [hsplit]
  constructor
  · exact pyStrip_idem _
  · rw [pyStrip_cons_of_space ' ' _ (by decide)]
    exact pyStrip_idem _

/-- Witness for claim C9 at a concrete qualifying line. -/
theorem claim_C9_witness :
    pyStrip (pySplitMax1 ':' (flashcardOf roundLine)).1 =
      pyStrip (pySplitMax1 ':' roundLine).1 ∧
    pyStrip (pySplitMax1 ':' (flashcardOf roundLine)).2 =
      pyStrip (pySplitMax1 ':' roundLine).2 :=
  claim_C9_roundtrip roundLine (by decide)

/-- Claim C10: whenever `generate_mcq_questions` returns, every emitted
tuple's labelled options have exactly four entries labelled `A`, `B`,
`C`, `D` in order, and the tuple's correct answer is the value of one
of them. -/
theorem claim_C10_labels_complete
    (sample : Nat → List PyStr → Nat → Option (List PyStr))
    (shuffle : Nat → List PyStr → List PyStr)
    (hsam : SampleOK sample) (hsh : ShuffleOK shuffle)
    (text : PyStr) (ms : List MCQ)
    (h : generate_mcq_questions sample shuffle text = some ms) :
    ∀ m ∈ ms,
      m.labeled_options.length = 4 ∧
      m.labeled_options.map Prod.fst = ['A', 'B', 'C', 'D'] ∧
      ∃ p ∈ m.labeled_options, p.2 = m.correct_answer := by
  intro m hm
  have h' : mcqLoop sample shuffle (pySentences text) 0 (pySentences text) =
      some ms := h
  have hf := mcqLoop_some_spec hsam hsh (pySentences text) (pySentences text) 0 ms h'
  rcases forall2_mem_right hf m hm with ⟨sentence, _, hmatch⟩
  rcases hmatch with ⟨ds, os, h3, _, hperm, hmeq⟩
  subst hmeq
  have hlen : os.length = 4 := by
    have hpl := hperm.length_eq
    rw [List.length_cons, h3] at hpl
    exact hpl
  have hlab : option_labels.length = 4 := rfl
  refine ⟨?_, ?_, ?_⟩
  · rw [List.length_zip, hlab, hlen]
    omega
  · simpa [option_labels] using
      List.map_fst_zip option_labels os (by rw [hlab, hlen])
  · have hmem : pyStrip sentence ∈ os :=
      hperm.mem_iff.mpr (List.mem_cons_self _ _)
    have hsnd : (option_labels.zip os).map Prod.snd = os :=
      List.map_snd_zip option_labels os (by rw [hlab, hlen])
    rw [← hsnd] at hmem
    rcases List.mem_map.mp hmem with ⟨p, hp, hpe⟩
    exact ⟨p, hp, hpe⟩

/-- Witness for claim C10 at the concrete emitted tuple. -/
theorem claim_C10_witness :
    mcqSampleHead.labeled_options.length = 4 ∧
    mcqSampleHead.labeled_options.map Prod.fst = ['A', 'B', 'C', 'D'] ∧
    ∃ p ∈ mcqSampleHead.labeled_options, p.2 = mcqSampleHead.correct_answer :=
  claim_C10_labels_complete defaultSample defaultShuffle defaultSample_ok
    defaultShuffle_ok mcqSampleText mcqSampleOutput (by decide)
    mcqSampleHead (by decide)

end SmartStudy
